import Mathlib

/-!
Shallow embedding of the signal parsing and scoring core of the
caishenmiao trading-journal application: `calculateScore` from
`src/lib/scoring.ts` and the free-text parser (`parseSignalText`,
`normalizeRecord`, `normalizeCode`, `parseSectorPattern` and the
positional extraction helpers) from the parser module.

Modelling conventions:
* JavaScript values flowing through the parser's loosely typed "raw"
  field bags are modelled by `JsVal` (undefined, null, booleans,
  numbers, strings, arrays, objects).
* JavaScript numbers are modelled by `JsNum`: `NaN` and the two
  infinities are explicit constructors and every finite value is an
  exact decimal `m / 10 ^ k`.  Every number this code produces comes
  from `JSON.parse` or `parseFloat` applied to decimal text, for which
  the decimal representation is exact, and `String(n)` followed by
  re-parsing round-trips on such values just as it does on JavaScript
  doubles.
* Exceptions (`JSON.parse` failures, `TypeError` from property access
  on null/undefined and from calling `.trim()` on a non-string) are
  modelled with `Except String`; a `try { ... } catch` block maps an
  inner `.error` to its fall-through continuation.
* Impure access to the current date (`new Date().toISOString()`) is
  modelled by an explicit `today` argument.
-/

namespace Caishen

/-! ## JavaScript character and string primitives -/

/-- Whitespace as used by `String.prototype.trim` and the regex class
`\s`: space, tab, line terminators, vertical tab, form feed, NBSP,
ideographic space, BOM. -/
def jsIsSpace (c : Char) : Bool :=
  c = ' ' || c = '\t' || c = '\n' || c = '\r' ||
  c.toNat = 11 || c.toNat = 12 || c.toNat = 0xA0 ||
  c.toNat = 0x3000 || c.toNat = 0xFEFF

/-- JS `String.prototype.trim`. -/
def jsTrim (s : String) : String :=
  ⟨((s.data.dropWhile jsIsSpace).reverse.dropWhile jsIsSpace).reverse⟩

/-- List-level split on a separator character, keeping empty segments,
as `String.prototype.split` with a one-character separator does. -/
def splitChAux (sep : Char) : List Char → List Char → List (List Char)
  | [], acc => [acc.reverse]
  | c :: rest, acc =>
      if c = sep then acc.reverse :: splitChAux sep rest []
      else splitChAux sep rest (c :: acc)

/-- JS `s.split(sep)` for a one-character separator string. -/
def splitCh (sep : Char) (s : String) : List String :=
  (splitChAux sep s.data []).map (fun l => ⟨l⟩)

/-- Split on the regex character class `[,，、]` (used for sector text). -/
def splitSectorAux : List Char → List Char → List (List Char)
  | [], acc => [acc.reverse]
  | c :: rest, acc =>
      if c = ',' || c = '，' || c = '、' then acc.reverse :: splitSectorAux rest []
      else splitSectorAux rest (c :: acc)

def splitSector (s : String) : List String :=
  (splitSectorAux s.data []).map (fun l => ⟨l⟩)

/-- Whether `pre` is a prefix of `l`. -/
def listIsPre : List Char → List Char → Bool
  | [], _ => true
  | _ :: _, [] => false
  | a :: as, b :: bs => a = b && listIsPre as bs

/-- Substring containment over char lists. -/
def listContainsSub (needle : List Char) : List Char → Bool
  | [] => needle.isEmpty
  | c :: rest => listIsPre needle (c :: rest) || listContainsSub needle rest

/-- JS `s.includes(sub)`. -/
def containsSub (s sub : String) : Bool :=
  listContainsSub sub.data s.data

/-- JS `s.includes(c)` for a single-character needle. -/
def containsChar (c : Char) (s : String) : Bool :=
  s.data.any (fun a => a = c)

/-- JS `s.startsWith(pre)`. -/
def strStartsWith (s pre : String) : Bool :=
  listIsPre pre.data s.data

/-- JS `String.prototype.toLowerCase` (ASCII range; CJK characters are
unaffected, matching JavaScript). -/
def jsToLower (s : String) : String :=
  ⟨s.data.map Char.toLower⟩

/-- JS `s.padStart(n, c)` with a one-character pad string. -/
def jsPadStart (s : String) (n : Nat) (c : Char) : String :=
  ⟨List.replicate (n - s.data.length) c ++ s.data⟩

/-- JS `s.replace(pat, "")` with a one-character string pattern: removes
only the first occurrence. -/
def removeFirstCh (c : Char) : List Char → List Char
  | [] => []
  | a :: as => if a = c then as else a :: removeFirstCh c as

/-! ## JavaScript numbers -/

/-- JavaScript numbers: `NaN`, signed infinities, and finite values as
exact decimals `m / 10 ^ k`. -/
inductive JsNum where
  | nan
  | inf (pos : Bool)
  | dec (m : Int) (k : Nat)
deriving DecidableEq, Repr

/-- Build a canonical decimal (no trailing zeros in the fractional
part), mirroring the shortest form `String(n)` prints. -/
def mkDec : Int → Nat → JsNum
  | m, 0 => .dec m 0
  | m, k + 1 => if m % 10 = 0 then mkDec (m / 10) k else .dec m (k + 1)

/-- Comparison `n >= b` for a natural bound `b`; `NaN` compares false,
matching JavaScript. -/
def JsNum.geNat (n : JsNum) (b : Nat) : Bool :=
  match n with
  | .nan => false
  | .inf pos => pos
  | .dec m k => (b : Int) * (10 : Int) ^ k ≤ m

/-- Falsiness of a number: `0` and `NaN` are falsy. -/
def JsNum.falsy : JsNum → Bool
  | .nan => true
  | .inf _ => false
  | .dec m _ => m = 0

/-- Decimal digits of a natural number (fuel-indexed so it reduces in
the kernel). -/
def natDigits : Nat → Nat → List Char
  | 0, _ => []
  | _ + 1, 0 => []
  | fuel + 1, n => natDigits fuel (n / 10) ++ [Char.ofNat (48 + n % 10)]

def natStr (n : Nat) : String :=
  if n = 0 then "0" else ⟨natDigits (n + 1) n⟩

/-- Render a finite decimal the way `String(n)` prints it. -/
def decRender (m : Int) (k : Nat) : String :=
  let sign := if m < 0 then "-" else ""
  let ds := (natStr m.natAbs).data
  if k = 0 then sign ++ ⟨ds⟩
  else
    let ds := List.replicate (k + 1 - ds.length) '0' ++ ds
    sign ++ ⟨ds.take (ds.length - k)⟩ ++ "." ++ ⟨ds.drop (ds.length - k)⟩

/-- Printing `String(n)` for a JavaScript number. -/
def JsNum.render : JsNum → String
  | .nan => "NaN"
  | .inf true => "Infinity"
  | .inf false => "-Infinity"
  | .dec m k => decRender m k

/-- Digits to a natural number. -/
def digitsToNat (ds : List Char) : Nat :=
  ds.foldl (fun acc c => acc * 10 + (c.toNat - 48)) 0

/-- Assemble a parsed mantissa/fraction/exponent into a `JsNum`:
the value is `sign * (intPart.fracPart) * 10 ^ e`. -/
def assembleNum (neg : Bool) (intPart fracPart : List Char) (e : Int) : JsNum :=
  let m0 : Int := (digitsToNat (intPart ++ fracPart) : Int)
  let m0 : Int := if neg then -m0 else m0
  let kInt : Int := (fracPart.length : Int) - e
  if kInt ≤ 0 then mkDec (m0 * (10 : Int) ^ (-kInt).toNat) 0
  else mkDec m0 kInt.toNat

/-- JS `parseFloat`: skips leading whitespace, reads an optional sign, then
the longest prefix that is `Infinity` or a decimal literal with optional
fraction and exponent; yields `NaN` when no digits are found. -/
def parseFloatS (s : String) : JsNum :=
  let l := s.data.dropWhile jsIsSpace
  let (neg, l) : Bool × List Char :=
    match l with
    | '+' :: r => (false, r)
    | '-' :: r => (true, r)
    | r => (false, r)
  if listIsPre "Infinity".data l then .inf !neg
  else
    let intPart := l.takeWhile Char.isDigit
    let r1 := l.drop intPart.length
    let (fracPart, r2) : List Char × List Char :=
      match r1 with
      | '.' :: q => (q.takeWhile Char.isDigit, q.drop (q.takeWhile Char.isDigit).length)
      | q => ([], q)
    if intPart.isEmpty && fracPart.isEmpty then .nan
    else
      let e : Int :=
        match r2 with
        | 'e' :: q => expOf q
        | 'E' :: q => expOf q
        | _ => 0
      assembleNum neg intPart fracPart e
where
  /-- Exponent suffix after `e`/`E`: optional sign then digits; an `e`
  not followed by digits contributes no exponent. -/
  expOf (q : List Char) : Int :=
    let (eneg, q) : Bool × List Char :=
      match q with
      | '+' :: r => (false, r)
      | '-' :: r => (true, r)
      | r => (false, r)
    let ds := q.takeWhile Char.isDigit
    if ds.isEmpty then 0
    else if eneg then -(digitsToNat ds : Int) else (digitsToNat ds : Int)

/-! ## JavaScript values -/

/-- Loosely typed JavaScript values as they appear in the parser's raw
field bags and in `JSON.parse` results. -/
inductive JsVal where
  | undefined
  | null
  | bool (b : Bool)
  | num (n : JsNum)
  | str (s : String)
  | arr (elems : List JsVal)
  | obj (fields : List (String × JsVal))

/-- JavaScript truthiness. -/
def jsTruthy : JsVal → Bool
  | .undefined => false
  | .null => false
  | .bool b => b
  | .num n => !n.falsy
  | .str s => s ≠ ""
  | .arr _ => true
  | .obj _ => true

/-- The `||` operator. -/
def jsOr (a b : JsVal) : JsVal :=
  if jsTruthy a then a else b

/-- First-match association-list lookup (object fields are kept
key-unique by `rawSet`, and the JSON parser applies last-wins updates,
so first-match lookup observes JavaScript property semantics). -/
def lookupStr : List (String × JsVal) → String → Option JsVal
  | [], _ => none
  | (k', v) :: rest, k => if k' = k then some v else lookupStr rest k

/-- Property read `v[key]` on a receiver that is known not to throw:
objects yield the stored value or undefined; primitives and arrays
yield undefined for the keys this code reads. -/
def jsGetD (v : JsVal) (key : String) : JsVal :=
  match v with
  | .obj fs => (lookupStr fs key).getD .undefined
  | _ => .undefined

/-- Property assignment `bag[k] = v`: overwrite an existing key in
place, otherwise append in insertion order. -/
def rawSet : List (String × JsVal) → String → JsVal → List (String × JsVal)
  | [], k, v => [(k, v)]
  | (k', v') :: rest, k, v =>
      if k' = k then (k, v) :: rest else (k', v') :: rawSet rest k v

def joinComma : List String → String
  | [] => ""
  | [s] => s
  | s :: rest => s ++ "," ++ joinComma rest

/-- Worker for `String(v)` (fuel-indexed for the array case; `jsToString` supplies
sufficient fuel).  Array elements print via `Array.prototype.join`,
where null and undefined elements print as empty. -/
def jsToStringF : Nat → JsVal → String
  | _, .undefined => "undefined"
  | _, .null => "null"
  | _, .bool true => "true"
  | _, .bool false => "false"
  | _, .num n => n.render
  | _, .str s => s
  | _, .obj _ => "[object Object]"
  | 0, .arr _ => ""
  | fuel + 1, .arr xs =>
      joinComma (xs.map (fun x =>
        match x with
        | .null => ""
        | .undefined => ""
        | y => jsToStringF fuel y))

/-- Nesting depth of a value, used as fuel for `jsToString`. -/
def jsDepth : JsVal → Nat
  | .arr xs => 1 + xs.attach.foldl (fun acc x => max acc (jsDepth x.1)) 0
  | .obj fs => 1 + fs.attach.foldl (fun acc kv => max acc (jsDepth kv.1.2)) 0
  | _ => 1
decreasing_by
  · have h := List.sizeOf_lt_of_mem x.2
    simp only [JsVal.arr.sizeOf_spec]
    omega
  · have h := List.sizeOf_lt_of_mem kv.2
    obtain ⟨⟨a, b⟩, hm⟩ := kv
    simp only [JsVal.obj.sizeOf_spec, Prod.mk.sizeOf_spec] at h ⊢
    omega

/-- JS `String(v)`; the fuel-indexed worker is only engaged for arrays
(whose join recurses into the elements). -/
def jsToString (v : JsVal) : String :=
  match v with
  | .arr xs => jsToStringF (jsDepth (.arr xs)) (.arr xs)
  | .undefined => "undefined"
  | .null => "null"
  | .bool true => "true"
  | .bool false => "false"
  | .num n => n.render
  | .str s => s
  | .obj _ => "[object Object]"

def optStr : Option String → JsVal
  | none => .undefined
  | some s => .str s

def optNum : Option JsNum → JsVal
  | none => .undefined
  | some n => .num n

/-! ## JSON.parse -/

/-- Hex digit value. -/
def hexVal (c : Char) : Option Nat :=
  if '0' ≤ c ∧ c ≤ '9' then some (c.toNat - 48)
  else if 'a' ≤ c ∧ c ≤ 'f' then some (c.toNat - 87)
  else if 'A' ≤ c ∧ c ≤ 'F' then some (c.toNat - 55)
  else none

def hex4 : List Char → Option (Nat × List Char)
  | a :: b :: c :: d :: rest => do
      let va ← hexVal a
      let vb ← hexVal b
      let vc ← hexVal c
      let vd ← hexVal d
      pure (((va * 16 + vb) * 16 + vc) * 16 + vd, rest)
  | _ => none

/-- Turn a code unit (possibly a surrogate half) into a `Char`; lone
surrogates become U+FFFD. -/
def codeUnitChar (n : Nat) : Char :=
  if 0xD800 ≤ n ∧ n ≤ 0xDFFF then Char.ofNat 0xFFFD else Char.ofNat n

/-- JSON string body after the opening quote: returns the decoded
characters and the remaining input, or fails on bad escapes, raw
control characters or a missing closing quote. -/
def jstrAux : Nat → List Char → List Char → Option (List Char × List Char)
  | _, acc, '"' :: rest => some (acc.reverse, rest)
  | fuel + 1, acc, '\\' :: c :: rest =>
      match c with
      | '"' => jstrAux fuel ('"' :: acc) rest
      | '\\' => jstrAux fuel ('\\' :: acc) rest
      | '/' => jstrAux fuel ('/' :: acc) rest
      | 'b' => jstrAux fuel (Char.ofNat 8 :: acc) rest
      | 'f' => jstrAux fuel (Char.ofNat 12 :: acc) rest
      | 'n' => jstrAux fuel ('\n' :: acc) rest
      | 'r' => jstrAux fuel ('\r' :: acc) rest
      | 't' => jstrAux fuel ('\t' :: acc) rest
      | 'u' =>
          match hex4 rest with
          | none => none
          | some (v, rest') =>
              if 0xD800 ≤ v ∧ v ≤ 0xDBFF then
                match rest' with
                | '\\' :: 'u' :: rest'' =>
                    match hex4 rest'' with
                    | some (w, rest''') =>
                        if 0xDC00 ≤ w ∧ w ≤ 0xDFFF then
                          jstrAux fuel
                            (Char.ofNat (0x10000 + (v - 0xD800) * 0x400 + (w - 0xDC00)) :: acc) rest'''
                        else jstrAux fuel (codeUnitChar w :: codeUnitChar v :: acc) rest'''
                    | none => none
                | _ => jstrAux fuel (codeUnitChar v :: acc) rest'
              else jstrAux fuel (codeUnitChar v :: acc) rest'
      | _ => none
  | fuel + 1, acc, c :: rest =>
      if c.toNat < 32 then none else jstrAux fuel (c :: acc) rest
  | _, _, _ => none

/-- JSON whitespace. -/
def jsonWs (c : Char) : Bool :=
  c = ' ' || c = '\t' || c = '\n' || c = '\r'

/-- Strict JSON number: `-? (0 | [1-9][0-9]*) (. [0-9]+)? ([eE][+-]?[0-9]+)?`. -/
def jnum (l : List Char) : Option (JsNum × List Char) :=
  let (neg, l1) : Bool × List Char :=
    match l with
    | '-' :: r => (true, r)
    | r => (false, r)
  let intPart := l1.takeWhile Char.isDigit
  if intPart.isEmpty then none
  else if intPart.length > 1 ∧ intPart.headD '0' = '0' then none
  else
    let r1 := l1.drop intPart.length
    match r1 with
    | '.' :: q =>
        let fracPart := q.takeWhile Char.isDigit
        if fracPart.isEmpty then none
        else jnumExp neg intPart fracPart (q.drop fracPart.length)
    | _ => jnumExp neg intPart [] r1
where
  jnumExp (neg : Bool) (intPart fracPart : List Char) (r : List Char) :
      Option (JsNum × List Char) :=
    match r with
    | 'e' :: q => jnumExpTail neg intPart fracPart q
    | 'E' :: q => jnumExpTail neg intPart fracPart q
    | _ => some (assembleNum neg intPart fracPart 0, r)
  jnumExpTail (neg : Bool) (intPart fracPart : List Char) (q : List Char) :
      Option (JsNum × List Char) :=
    let (eneg, q1) : Bool × List Char :=
      match q with
      | '+' :: r => (false, r)
      | '-' :: r => (true, r)
      | r => (false, r)
    let ds := q1.takeWhile Char.isDigit
    if ds.isEmpty then none
    else
      let e : Int := if eneg then -(digitsToNat ds : Int) else (digitsToNat ds : Int)
      some (assembleNum neg intPart fracPart e, q1.drop ds.length)

mutual

/-- One JSON value (leading whitespace allowed), fuel-indexed. -/
def jparseVal : Nat → List Char → Option (JsVal × List Char)
  | 0, _ => none
  | fuel + 1, cs =>
      let cs := cs.dropWhile jsonWs
      match cs with
      | 'n' :: 'u' :: 'l' :: 'l' :: rest => some (.null, rest)
      | 't' :: 'r' :: 'u' :: 'e' :: rest => some (.bool true, rest)
      | 'f' :: 'a' :: 'l' :: 's' :: 'e' :: rest => some (.bool false, rest)
      | '"' :: rest =>
          match jstrAux (rest.length + 1) [] rest with
          | some (chars, rest') => some (.str ⟨chars⟩, rest')
          | none => none
      | '[' :: rest =>
          let rest' := rest.dropWhile jsonWs
          match rest' with
          | ']' :: r => some (.arr [], r)
          | _ =>
              match jparseArrItems fuel rest with
              | some (xs, r) => some (.arr xs, r)
              | none => none
      | '{' :: rest =>
          let rest' := rest.dropWhile jsonWs
          match rest' with
          | '}' :: r => some (.obj [], r)
          | _ =>
              match jparseObjItems fuel [] rest with
              | some (fs, r) => some (.obj fs, r)
              | none => none
      | _ =>
          match jnum cs with
          | some (n, rest) => some (.num n, rest)
          | none => none

/-- Comma-separated array items followed by `]`. -/
def jparseArrItems : Nat → List Char → Option (List JsVal × List Char)
  | 0, _ => none
  | fuel + 1, cs =>
      match jparseVal fuel cs with
      | none => none
      | some (v, rest) =>
          let rest := rest.dropWhile jsonWs
          match rest with
          | ',' :: r =>
              match jparseArrItems fuel r with
              | some (vs, r') => some (v :: vs, r')
              | none => none
          | ']' :: r => some ([v], r)
          | _ => none

/-- Comma-separated `"key": value` members followed by `}`; duplicate
keys follow last-wins assignment semantics. -/
def jparseObjItems : Nat → List (String × JsVal) → List Char → Option (List (String × JsVal) × List Char)
  | 0, _, _ => none
  | fuel + 1, acc, cs =>
      let cs := cs.dropWhile jsonWs
      match cs with
      | '"' :: rest =>
          match jstrAux (rest.length + 1) [] rest with
          | none => none
          | some (keyChars, rest') =>
              let rest' := rest'.dropWhile jsonWs
              match rest' with
              | ':' :: r =>
                  match jparseVal fuel r with
                  | none => none
                  | some (v, r') =>
                      let acc := rawSet acc ⟨keyChars⟩ v
                      let r' := r'.dropWhile jsonWs
                      match r' with
                      | ',' :: r'' => jparseObjItems fuel acc r''
                      | '}' :: r'' => some (acc, r'')
                      | _ => none
              | _ => none
      | _ => none

end

/-- JS `JSON.parse`: whole-input parse; `none` models a thrown
`SyntaxError`. -/
def jsonParse (s : String) : Option JsVal :=
  match jparseVal (2 * s.data.length + 8) s.data with
  | some (v, rest) => if (rest.dropWhile jsonWs).isEmpty then some v else none
  | none => none

/-! ## Scoring engine (`src/lib/scoring.ts`) -/

/-- The two recognised sector-pattern labels: `patternA` is the source
label 水下拉水上, `patternB` is 波动三角收窄. -/
inductive SectorPattern where
  | patternA
  | patternB
deriving DecidableEq, Repr

/-- The fields of `Partial<SignalRecord>` that `calculateScore` reads;
`none` covers both `null` and an absent (undefined) field, which the
source treats alike via `=== null || === undefined` and `!= null`. -/
structure ScorePartial where
  sector_pattern : Option SectorPattern
  turnover : Option JsNum

structure ScoreResult where
  score : Int
  reason : List String
deriving DecidableEq, Repr

/-- The additive rule evaluation of `calculateScore` before the final
clamp and empty-reasons fallback: base score from the sector pattern,
then the mutually exclusive turnover tier chain. -/
def scoreBeforeClamp (record : ScorePartial) : Int × List String :=
  let base : Int × List String :=
    match record.sector_pattern with
    | some .patternA => (30, ["板块分时：水下拉水上 +30"])
    | some .patternB => (20, ["板块分时：波动三角收窄 +20"])
    | none => (0, ["板块分时信息缺失"])
  match record.turnover with
  | some t =>
      if t.geNat 8 then (base.1 + 30, base.2 ++ ["换手率" ++ t.render ++ "% >= 8% +30"])
      else if t.geNat 5 then (base.1 + 20, base.2 ++ ["换手率" ++ t.render ++ "% >= 5% +20"])
      else if t.geNat 3 then (base.1 + 10, base.2 ++ ["换手率" ++ t.render ++ "% >= 3% +10"])
      else base
  | none => (base.1, base.2 ++ ["换手率信息缺失"])

/-- The function `calculateScore` from `src/lib/scoring.ts`: additive rules, then
`Math.max(0, Math.min(100, score))`, then the empty-reasons fallback. -/
def calculateScore (record : ScorePartial) : ScoreResult :=
  let s := (scoreBeforeClamp record).1
  let reasons := (scoreBeforeClamp record).2
  let s := max 0 (min 100 s)
  let reasons := if reasons.isEmpty then ["信息不足/需补字段"] else reasons
  ⟨s, reasons⟩

/-! ## Record normalization -/

/-- The normalized record produced by the parser (`SignalRecord` of
`src/lib/types.ts` as populated by `normalizeRecord`).  `date` keeps
the raw JavaScript value (the source writes `raw.date as string`
without checking, so a non-string truthy value passes through), and
`sector` keeps raw values for the same reason (`raw.sector as
string[]` on an arbitrary array). -/
structure SignalRecord where
  date : JsVal
  code : String
  name : String
  sector : List JsVal
  sector_pattern : Option SectorPattern
  turnover : Option JsNum
  chg : Option JsNum
  amount : Option JsNum
  debt_ratio : Option JsNum
  score : Int
  reason : List String

/-- The function `parseSectorPattern`: exact label match, then the legacy boolean
values, else null. -/
def parseSectorPattern (v : JsVal) : Option SectorPattern :=
  let s := jsTrim (jsToString (jsOr v (.str "")))
  if s = "水下拉水上" then some .patternA
  else if s = "波动三角收窄" then some .patternB
  else if s = "true" || s = "是" || s = "1" || s = "yes" then some .patternA
  else none

/-- The function `normalizeCode`: falsy input yields `""`; otherwise stringify,
strip every non-digit, left-pad with `'0'` to length 6. -/
def normalizeCode (code : JsVal) : String :=
  if jsTruthy code = false then ""
  else jsPadStart ⟨(jsToString code).data.filter Char.isDigit⟩ 6 '0'

/-- The `parseFloat(...) || null` coercion: a number parse that yields
`NaN` or `0` becomes null. -/
def numOrNull (n : JsNum) : Option JsNum :=
  if n.falsy then none else some n

/-- The expression `parseFloat(String(v || "").replace("%", ""))` followed by
`|| null` — used for `turnover`, `chg` and `debt_ratio`. -/
def percentField (v : JsVal) : Option JsNum :=
  numOrNull (parseFloatS ⟨removeFirstCh '%' (jsToString (jsOr v (.str ""))).data⟩)

/-- The expression `parseFloat(String(v || "").replace(/[亿万,]/g, "")) || null` —
used for `amount`. -/
def amountField (v : JsVal) : Option JsNum :=
  numOrNull (parseFloatS
    ⟨(jsToString (jsOr v (.str ""))).data.filter
      (fun c => !(c = '亿' || c = '万' || c = ','))⟩)

/-- The record `normalizeRecord` returns on success, as a function of
the raw bag and the string that `((raw.name as string) || "")`
evaluated to. -/
def normalizeFields (today : String) (defaultDate : Option String) (raw : JsVal)
    (nameS : String) : SignalRecord :=
  { date := jsOr (jsGetD raw "date") (jsOr (optStr defaultDate) (.str today))
    code := normalizeCode (jsGetD raw "code")
    name := jsTrim nameS
    sector :=
      match jsGetD raw "sector" with
      | .str s => (((splitSector s).map jsTrim).filter (fun t => t ≠ "")).map JsVal.str
      | .arr xs => xs
      | _ => []
    sector_pattern := parseSectorPattern (jsGetD raw "sector_pattern")
    turnover := percentField (jsGetD raw "turnover")
    chg := percentField (jsGetD raw "chg")
    amount := amountField (jsGetD raw "amount")
    debt_ratio := percentField (jsGetD raw "debt_ratio")
    score := (calculateScore ⟨parseSectorPattern (jsGetD raw "sector_pattern"),
                              percentField (jsGetD raw "turnover")⟩).score
    reason := (calculateScore ⟨parseSectorPattern (jsGetD raw "sector_pattern"),
                               percentField (jsGetD raw "turnover")⟩).reason }

/-- The function `normalizeRecord`.  Every property access in the source reads from
`raw`, so the function throws exactly when `raw` is null or undefined
(the first access `raw.date` raises `TypeError`), or when
`((raw.name as string) || "").trim()` is applied to a truthy
non-string.  All other field computations are total. -/
def normalizeRecordE (today : String) (defaultDate : Option String) (raw : JsVal) :
    Except String SignalRecord :=
  match raw with
  | .null => .error "TypeError: cannot read properties of null"
  | .undefined => .error "TypeError: cannot read properties of undefined"
  | raw =>
      match jsOr (jsGetD raw "name") (.str "") with
      | .str nameS => .ok (normalizeFields today defaultDate raw nameS)
      | _ => .error "TypeError: name.trim is not a function"

/-! ## Free-text / table parser -/

/-- The fixed header→field dictionary of `mapHeaderToKey` (the
dictionary's values are all truthy, so `map[h] || null` is lookup). -/
def headerKeyMap : List (String × String) :=
  [("日期", "date"), ("date", "date"),
   ("代码", "code"), ("股票代码", "code"), ("code", "code"),
   ("名称", "name"), ("股票", "name"), ("简称", "name"), ("name", "name"),
   ("股票简称", "name"),
   ("板块", "sector"), ("概念", "sector"), ("sector", "sector"),
   ("水下拉水上", "sector_pattern"), ("波动三角收窄", "sector_pattern"),
   ("板块分时", "sector_pattern"), ("信号", "sector_pattern"),
   ("换手率", "turnover"), ("换手", "turnover"), ("turnover", "turnover"),
   ("触发时间", "trigger_time"), ("时间", "trigger_time"),
   ("trigger_time", "trigger_time"),
   ("涨跌幅", "chg"), ("涨幅", "chg"), ("chg", "chg"),
   ("成交额", "amount"), ("amount", "amount"),
   ("资产负债率", "debt_ratio"), ("debt_ratio", "debt_ratio")]

def lookupKey : List (String × String) → String → Option String
  | [], _ => none
  | (k, v) :: rest, h => if k = h then some v else lookupKey rest h

/-- The function `mapHeaderToKey`: lowercase, trim, fixed dictionary lookup. -/
def mapHeaderToKey (header : String) : Option String :=
  lookupKey headerKeyMap (jsTrim (jsToLower header))

/-! ### Positional extraction heuristics (headerless rows) -/

def isAsciiLetter (c : Char) : Bool :=
  ('A' ≤ c ∧ c ≤ 'Z') ∨ ('a' ≤ c ∧ c ≤ 'z')

/-- The CJK range `[一-龥]`. -/
def isCJK (c : Char) : Bool :=
  0x4e00 ≤ c.toNat ∧ c.toNat ≤ 0x9fa5

def hasPct (s : String) : Bool :=
  s.data.any (fun c => c = '%' || c = '％')

/-- The function `extractCode`: first part whose trim tests `/^\d{6}$/`. -/
def extractCode (parts : List String) : Option String :=
  parts.find? (fun p =>
    (jsTrim p).data.length = 6 && (jsTrim p).data.all Char.isDigit)

/-- The function `extractName`: first part whose trim starts with a CJK or ASCII
letter, that contains no percent sign, and has length at most 8. -/
def extractName (parts : List String) : Option String :=
  parts.find? (fun p =>
    (match (jsTrim p).data with
     | c :: _ => isCJK c || isAsciiLetter c
     | [] => false) &&
    !hasPct p && p.data.length ≤ 8)

/-- The function `extractSector`: first part containing a list separator, or long
CJK text without a percent sign. -/
def extractSector (parts : List String) : Option String :=
  parts.find? (fun p =>
    containsChar '、' p || containsChar ',' p ||
    (p.data.length > 4 && p.data.any isCJK && !hasPct p))

/-- The call `extractNumber(parts, /%/)`: first part containing `%` whose
percent-stripped parse is not NaN.  (The source's `hint` parameter is
always `/%/` at its single call site.) -/
def extractNumber : List String → Option JsNum
  | [] => none
  | p :: rest =>
      if !containsChar '%' p then extractNumber rest
      else
        match parseFloatS ⟨p.data.filter (fun c => !(c = '%' || c = '％'))⟩ with
        | .nan => extractNumber rest
        | n => some n

/-- Test for `/[+-]?\d+\.\d+%?$/` on the trimmed part: ends with
digits, a dot, digits, and an optional trailing `%` (the optional sign
and any prefix are absorbed by the left-unanchored regex). -/
def chgTest (p : String) : Bool :=
  let r := (jsTrim p).data.reverse
  let r := match r with
    | '%' :: q => q
    | q => q
  match r.dropWhile Char.isDigit, r.takeWhile Char.isDigit with
  | '.' :: r2, _ :: _ => (r2.headD ' ').isDigit
  | _, _ => false

/-- The function `extractChg`: first part matching `chgTest`, parsed with `%`/`％`
stripped. -/
def extractChg : List String → Option JsNum
  | [] => none
  | p :: rest =>
      if chgTest p then
        some (parseFloatS ⟨p.data.filter (fun c => !(c = '%' || c = '％'))⟩)
      else extractChg rest

/-! ### Table rows -/

/-- The raw bag built from one data row when headers exist:
`headers.forEach((h, i) => { if (i < parts.length) { const key =
mapHeaderToKey(h); if (key) raw[key] = parts[i]; } })`. -/
def headerBagGo (parts : List String) : List String → Nat → List (String × JsVal) →
    List (String × JsVal)
  | [], _, acc => acc
  | h :: hs, i, acc =>
      let acc :=
        if i < parts.length then
          match mapHeaderToKey h with
          | some key => rawSet acc key (.str (parts.getD i ""))
          | none => acc
        else acc
      headerBagGo parts hs (i + 1) acc

def headerBag (headers parts : List String) : List (String × JsVal) :=
  headerBagGo parts headers 0 []

/-- The raw bag built from one headerless data row via the positional
heuristics (the five assigned keys are distinct, so the object is this
literal association list). -/
def positionalBag (parts : List String) : List (String × JsVal) :=
  [("code", optStr (extractCode parts)),
   ("name", optStr (extractName parts)),
   ("sector", optStr (extractSector parts)),
   ("turnover", optNum (extractNumber parts)),
   ("chg", optNum (extractChg parts))]

/-- One iteration of the data-line loop up to `normalizeRecord`:
`none` means the line was skipped (blank, a colon line without
comma/tab, or fewer than two cells). -/
def tableLineRaw (headers : List String) (sep : Char) (line : String) : Option JsVal :=
  let t := jsTrim line
  if t = "" then none
  else if containsChar ':' t && !containsChar ',' t && !containsChar '\t' t then none
  else
    let parts := (splitCh sep t).map jsTrim
    if parts.length < 2 then none
    else some (.obj (if headers.length > 0 then headerBag headers parts else positionalBag parts))

/-- The table-path loop over data lines: normalize each surviving raw
row and keep it when `record.code || record.name` is truthy.  A thrown
`TypeError` from `normalizeRecord` would propagate (this path has no
try/catch). -/
def tableLoop (today : String) (defaultDate : Option String) (headers : List String)
    (sep : Char) : List String → List SignalRecord → Except String (List SignalRecord)
  | [], acc => .ok acc
  | line :: rest, acc =>
      match tableLineRaw headers sep line with
      | none => tableLoop today defaultDate headers sep rest acc
      | some raw =>
          match normalizeRecordE today defaultDate raw with
          | .error e => .error e
          | .ok record =>
              tableLoop today defaultDate headers sep rest
                (if record.code ≠ "" || record.name ≠ "" then acc ++ [record] else acc)

/-! ### Label blocks -/

/-- The regex match `/^(.+?)[：:]\s*(.+)$/`: succeeds at the first
colon that has at least one character before it and at least one
character after it; the label is everything before that colon and the
value is everything after it.  (The source trims both captures before
use; trimming the full remainder equals trimming the `\s*`-stripped
capture, so the raw remainder is returned here.) -/
def labelMatchGo : List Char → List Char → Option (String × String)
  | _, [] => none
  | acc, c :: rest =>
      if (c = ':' || c = '：') && acc ≠ [] && rest ≠ [] then
        some (⟨acc.reverse⟩, ⟨rest⟩)
      else labelMatchGo (c :: acc) rest

def labelMatch (s : String) : Option (String × String) :=
  labelMatchGo [] s.data

/-- The raw bag accumulated over one block's non-blank lines. -/
def blockRaw (block : String) : List (String × JsVal) :=
  ((splitCh '\n' block).filter (fun l => jsTrim l ≠ "")).foldl
    (fun raw bline =>
      match labelMatch bline with
      | some (lab, value) =>
          match mapHeaderToKey (jsTrim lab) with
          | some key => rawSet raw key (.str (jsTrim value))
          | none => raw
      | none => raw) []

/-- The block-path loop: a block contributes only when its bag has at
least one key (`Object.keys(raw).length > 0`) and the normalized
record has a truthy code or name. -/
def blockLoop (today : String) (defaultDate : Option String) :
    List String → List SignalRecord → Except String (List SignalRecord)
  | [], acc => .ok acc
  | block :: rest, acc =>
      let raw := blockRaw block
      if raw.length > 0 then
        match normalizeRecordE today defaultDate (.obj raw) with
        | .error e => .error e
        | .ok record =>
            blockLoop today defaultDate rest
              (if record.code ≠ "" || record.name ≠ "" then acc ++ [record] else acc)
      else blockLoop today defaultDate rest acc

/-- Index of the last `'\n'` in a list, if any. -/
def lastNLGo : List Char → Nat → Option Nat → Option Nat
  | [], _, best => best
  | c :: rest, i, best => lastNLGo rest (i + 1) (if c = '\n' then some i else best)

/-- The split `trimmed.split(/\n\s*\n/)`: at each newline, greedily take the
whitespace run that follows; if it contains another newline, the match
extends to the last newline of the run and a segment boundary is cut
there. -/
def splitBlocksGo : Nat → List Char → List Char → List (List Char)
  | _, acc, [] => [acc.reverse]
  | 0, acc, rest => [acc.reverse ++ rest]
  | fuel + 1, acc, '\n' :: rest =>
      match lastNLGo (rest.takeWhile jsIsSpace) 0 none with
      | some j => acc.reverse :: splitBlocksGo fuel [] (rest.drop (j + 1))
      | none => splitBlocksGo fuel ('\n' :: acc) rest
  | fuel + 1, acc, c :: rest => splitBlocksGo fuel (c :: acc) rest

def splitBlocks (s : String) : List String :=
  (splitBlocksGo s.data.length [] s.data).map (fun l => ⟨l⟩)

/-! ### parseSignalText -/

/-- The text-parsing part of `parseSignalText` (everything after the
JSON attempt): delimited-table path, then the label-block fallback
when the table produced zero records. -/
def textParseE (today : String) (defaultDate : Option String) (trimmed : String) :
    Except String (List SignalRecord) :=
  let lines := (splitCh '\n' trimmed).filter (fun l => jsTrim l ≠ "")
  match lines with
  | [] => .ok []
  | first :: restLines =>
      let firstLower := jsToLower first
      let isHeader := containsSub firstLower "代码" || containsSub firstLower "code" ||
        containsSub firstLower "股票" || containsSub firstLower "名称"
      let dataLines := if isHeader then restLines else first :: restLines
      let sep : Char :=
        if containsChar '\t' firstLower then '\t'
        else if containsChar '|' firstLower then '|'
        else ','
      let headers : List String :=
        if isHeader then (splitCh sep first).map (fun h => jsToLower (jsTrim h)) else []
      match tableLoop today defaultDate headers sep dataLines [] with
      | .error e => .error e
      | .ok records =>
          if records.length = 0 then
            blockLoop today defaultDate (splitBlocks trimmed) records
          else .ok records

/-- The JSON-array attempt inside the `try { ... } catch` block:
`some records` is a successful `return`; `none` is any caught
exception (a `JSON.parse` SyntaxError, `.map` on a non-array, or a
`TypeError` thrown by `normalizeRecord` on a null or non-object
element), which falls through to text parsing. -/
def jsonMapE (today : String) (defaultDate : Option String) :
    List JsVal → Except String (List SignalRecord)
  | [] => .ok []
  | item :: rest => do
      let r ← normalizeRecordE today defaultDate item
      let rs ← jsonMapE today defaultDate rest
      pure (r :: rs)

def jsonTryPath (today : String) (defaultDate : Option String) (trimmed : String) :
    Option (List SignalRecord) :=
  match jsonParse trimmed with
  | none => none
  | some (.arr items) =>
      match jsonMapE today defaultDate items with
      | .ok rs => some rs
      | .error _ => none
  | some _ => none

/-- The function `parseSignalText(text, defaultDate)` with the ambient current date
made explicit as `today`.  The result is `Except` only because the
text paths call `normalizeRecord` outside any try/catch; the totality
theorem below shows the error case is unreachable. -/
def parseSignalTextE (today : String) (defaultDate : Option String) (text : String) :
    Except String (List SignalRecord) :=
  let trimmed := jsTrim text
  if strStartsWith trimmed "[" then
    match jsonTryPath today defaultDate trimmed with
    | some records => .ok records
    | none => textParseE today defaultDate trimmed
  else textParseE today defaultDate trimmed

/-! ## Structural lemmas -/

theorem normalizeRecordE_ok_shape {today : String} {dd : Option String} {raw : JsVal}
    {r : SignalRecord} (h : normalizeRecordE today dd raw = .ok r) :
    ∃ nameS, jsOr (jsGetD raw "name") (.str "") = .str nameS ∧
      r = normalizeFields today dd raw nameS := by
  unfold normalizeRecordE at h
  split at h
  · cases h
  · cases h
  · split at h
    next nameS heq => exact ⟨nameS, heq, (Except.ok.inj h).symm⟩
    next => cases h

/-- The raw bags built by the text paths store a plain string (or an
undefined marker) under `"name"`, which is what keeps
`normalizeRecord`'s `.trim()` call from throwing there. -/
def bagNameOk (bag : List (String × JsVal)) : Prop :=
  ∀ v, lookupStr bag "name" = some v → (∃ s, v = .str s) ∨ v = .undefined

theorem normalizeRecordE_obj_ok {today : String} {dd : Option String}
    {bag : List (String × JsVal)} (h : bagNameOk bag) :
    ∃ r, normalizeRecordE today dd (.obj bag) = .ok r := by
  simp only [normalizeRecordE]
  rcases hl : lookupStr bag "name" with _ | v
  · exact ⟨normalizeFields today dd (.obj bag) "", by simp [jsGetD, hl, jsOr, jsTruthy]⟩
  · rcases h v hl with ⟨s, rfl⟩ | rfl
    · by_cases hs : s = ""
      · exact ⟨normalizeFields today dd (.obj bag) "",
          by simp [jsGetD, hl, jsOr, jsTruthy, hs]⟩
      · exact ⟨normalizeFields today dd (.obj bag) s,
          by simp [jsGetD, hl, jsOr, jsTruthy, hs]⟩
    · exact ⟨normalizeFields today dd (.obj bag) "", by simp [jsGetD, hl, jsOr, jsTruthy]⟩

theorem lookupStr_mem {bag : List (String × JsVal)} {k : String} {v : JsVal}
    (h : lookupStr bag k = some v) : (k, v) ∈ bag := by
  induction bag with
  | nil => cases h
  | cons kv rest ih =>
      obtain ⟨k', v'⟩ := kv
      simp only [lookupStr] at h
      by_cases hk : k' = k
      · simp [hk] at h
        subst hk h
        exact List.mem_cons_self _ _
      · simp [hk] at h
        exact List.mem_cons_of_mem _ (ih h)

/-- Bags whose values are all strings. -/
def bagValsStr (bag : List (String × JsVal)) : Prop :=
  ∀ kv ∈ bag, ∃ s, kv.2 = JsVal.str s

theorem bagValsStr_nameOk {bag : List (String × JsVal)} (h : bagValsStr bag) :
    bagNameOk bag :=
  fun v hv => .inl (h _ (lookupStr_mem hv))

theorem rawSet_valsStr {bag : List (String × JsVal)} (h : bagValsStr bag)
    (k : String) (s : String) : bagValsStr (rawSet bag k (.str s)) := by
  induction bag with
  | nil =>
      intro kv hkv
      simp [rawSet] at hkv
      subst hkv
      exact ⟨s, rfl⟩
  | cons kv' rest ih =>
      obtain ⟨k', v'⟩ := kv'
      intro kv hkv
      simp only [rawSet] at hkv
      by_cases hk : k' = k
      · simp [hk] at hkv
        rcases hkv with rfl | hkv
        · exact ⟨s, rfl⟩
        · exact h kv (List.mem_cons_of_mem _ hkv)
      · simp [hk] at hkv
        rcases hkv with rfl | hkv
        · exact h (k', v') (List.mem_cons_self _ _)
        · exact ih (fun x hx => h x (List.mem_cons_of_mem _ hx)) kv hkv

theorem headerBagGo_valsStr (parts : List String) :
    ∀ (hs : List String) (i : Nat) (acc : List (String × JsVal)),
      bagValsStr acc → bagValsStr (headerBagGo parts hs i acc) := by
  intro hs
  induction hs with
  | nil => intro i acc h; simpa [headerBagGo] using h
  | cons hh ht ih =>
      intro i acc h
      simp only [headerBagGo]
      apply ih
      by_cases hi : i < parts.length
      · simp only [hi, if_true]
        rcases mapHeaderToKey hh with _ | key
        · exact h
        · exact rawSet_valsStr h _ _
      · simpa [hi] using h

theorem headerBag_nameOk (headers parts : List String) :
    bagNameOk (headerBag headers parts) :=
  bagValsStr_nameOk (headerBagGo_valsStr parts headers 0 [] (by intro kv hkv; cases hkv))

theorem positionalBag_nameOk (parts : List String) : bagNameOk (positionalBag parts) := by
  intro v hv
  simp [positionalBag, lookupStr] at hv
  rcases hname : extractName parts with _ | s
  · right; simp [hname, optStr] at hv; exact hv.symm
  · left; exact ⟨s, by simp [hname, optStr] at hv; exact hv.symm⟩

theorem blockRaw_valsStr (block : String) : bagValsStr (blockRaw block) := by
  unfold blockRaw
  generalize (splitCh '\n' block).filter (fun l => jsTrim l ≠ "") = blines
  have main : ∀ (ls : List String) (acc : List (String × JsVal)), bagValsStr acc →
      bagValsStr (ls.foldl (fun raw bline =>
        match labelMatch bline with
        | some (lab, value) =>
            match mapHeaderToKey (jsTrim lab) with
            | some key => rawSet raw key (.str (jsTrim value))
            | none => raw
        | none => raw) acc) := by
    intro ls
    induction ls with
    | nil => intro acc h; simpa using h
    | cons l rest ih =>
        intro acc h
        simp only [List.foldl]
        apply ih
        rcases hlm : labelMatch l with _ | ⟨lab, value⟩ <;> simp only [hlm]
        · exact h
        · rcases hmk : mapHeaderToKey (jsTrim lab) with _ | key <;> simp only [hmk]
          · exact h
          · exact rawSet_valsStr h _ _
  exact main blines [] (by intro kv hkv; cases hkv)

theorem tableLineRaw_some {headers : List String} {sep : Char} {line : String}
    {raw : JsVal} (h : tableLineRaw headers sep line = some raw) :
    ∃ bag, raw = .obj bag ∧ bagNameOk bag := by
  simp only [tableLineRaw] at h
  split_ifs at h
  any_goals cases h
  all_goals
    first
      | exact ⟨_, (Option.some.inj h).symm, headerBag_nameOk _ _⟩
      | exact ⟨_, (Option.some.inj h).symm, positionalBag_nameOk _⟩
      | exact ⟨_, rfl, headerBag_nameOk _ _⟩
      | exact ⟨_, rfl, positionalBag_nameOk _⟩

theorem tableLoop_ok (today : String) (dd : Option String) (headers : List String)
    (sep : Char) : ∀ (lines : List String) (acc : List SignalRecord),
    ∃ res, tableLoop today dd headers sep lines acc = .ok res := by
  intro lines
  induction lines with
  | nil => exact fun acc => ⟨acc, rfl⟩
  | cons line rest ih =>
      intro acc
      simp only [tableLoop]
      rcases hraw : tableLineRaw headers sep line with _ | raw
      · exact ih acc
      · obtain ⟨bag, rfl, hok⟩ := tableLineRaw_some hraw
        obtain ⟨r, hr⟩ := @normalizeRecordE_obj_ok today dd bag hok
        dsimp only
        rw [hr]
        exact ih _

theorem blockLoop_ok (today : String) (dd : Option String) :
    ∀ (blocks : List String) (acc : List SignalRecord),
    ∃ res, blockLoop today dd blocks acc = .ok res := by
  intro blocks
  induction blocks with
  | nil => exact fun acc => ⟨acc, rfl⟩
  | cons block rest ih =>
      intro acc
      simp only [blockLoop]
      by_cases hb : (blockRaw block).length > 0
      · simp only [hb, if_true]
        obtain ⟨r, hr⟩ :=
          @normalizeRecordE_obj_ok today dd (blockRaw block)
            (bagValsStr_nameOk (blockRaw_valsStr block))
        try dsimp only
        rw [hr]
        exact ih _
      · simp only [hb, if_false]
        exact ih acc

theorem textParseE_ok (today : String) (dd : Option String) (trimmed : String) :
    ∃ res, textParseE today dd trimmed = .ok res := by
  unfold textParseE
  rcases hl : (splitCh '\n' trimmed).filter (fun l => jsTrim l ≠ "") with _ | ⟨first, restLines⟩
  · exact ⟨[], rfl⟩
  · simp only
    obtain ⟨records, hrec⟩ := tableLoop_ok today dd _ _ _ []
    rw [hrec]
    by_cases hz : records.length = 0
    · simp only [hz, if_true]
      exact blockLoop_ok today dd _ _
    · simp only [hz, if_false]
      exact ⟨records, rfl⟩

/-! ## Membership lemmas: where output records come from -/

theorem tableLoop_mem (today : String) (dd : Option String) (headers : List String)
    (sep : Char) : ∀ (lines : List String) (acc res : List SignalRecord),
    tableLoop today dd headers sep lines acc = .ok res → ∀ r ∈ res,
      r ∈ acc ∨ (∃ raw, normalizeRecordE today dd raw = .ok r ∧
        (r.code ≠ "" ∨ r.name ≠ "")) := by
  intro lines
  induction lines with
  | nil =>
      intro acc res h r hr
      exact .inl ((Except.ok.inj h) ▸ hr)
  | cons line rest ih =>
      intro acc res h r hr
      simp only [tableLoop] at h
      rcases hraw : tableLineRaw headers sep line with _ | raw <;>
        rw [hraw] at h <;> dsimp only at h
      · exact ih acc res h r hr
      · rcases hnr : normalizeRecordE today dd raw with e | record <;>
          rw [hnr] at h <;> dsimp only at h
        · cases h
        · by_cases hcn : (record.code ≠ "" || record.name ≠ "") = true
          · rw [if_pos hcn] at h
            rcases ih _ res h r hr with hacc | hnew
            · rcases List.mem_append.mp hacc with hacc | hone
              · exact .inl hacc
              · rcases List.mem_singleton.mp hone with rfl
                refine .inr ⟨raw, hnr, ?_⟩
                rcases Bool.or_eq_true_iff.mp hcn with hc | hn
                · exact .inl (by simpa using hc)
                · exact .inr (by simpa using hn)
            · exact .inr hnew
          · rw [if_neg hcn] at h
            exact ih _ res h r hr

theorem blockLoop_mem (today : String) (dd : Option String) :
    ∀ (blocks : List String) (acc res : List SignalRecord),
    blockLoop today dd blocks acc = .ok res → ∀ r ∈ res,
      r ∈ acc ∨ (∃ raw, normalizeRecordE today dd raw = .ok r ∧
        (r.code ≠ "" ∨ r.name ≠ "")) := by
  intro blocks
  induction blocks with
  | nil =>
      intro acc res h r hr
      exact .inl ((Except.ok.inj h) ▸ hr)
  | cons block rest ih =>
      intro acc res h r hr
      simp only [blockLoop] at h
      by_cases hb : (blockRaw block).length > 0
      · rw [if_pos hb] at h
        rcases hnr : normalizeRecordE today dd (.obj (blockRaw block)) with e | record <;>
          rw [hnr] at h <;> dsimp only at h
        · cases h
        · by_cases hcn : (record.code ≠ "" || record.name ≠ "") = true
          · rw [if_pos hcn] at h
            rcases ih _ res h r hr with hacc | hnew
            · rcases List.mem_append.mp hacc with hacc | hone
              · exact .inl hacc
              · rcases List.mem_singleton.mp hone with rfl
                refine .inr ⟨_, hnr, ?_⟩
                rcases Bool.or_eq_true_iff.mp hcn with hc | hn
                · exact .inl (by simpa using hc)
                · exact .inr (by simpa using hn)
            · exact .inr hnew
          · rw [if_neg hcn] at h
            exact ih _ res h r hr
      · rw [if_neg hb] at h
        exact ih acc res h r hr

theorem textParseE_mem {today : String} {dd : Option String} {trimmed : String}
    {res : List SignalRecord} (h : textParseE today dd trimmed = .ok res) :
    ∀ r ∈ res, ∃ raw, normalizeRecordE today dd raw = .ok r ∧
      (r.code ≠ "" ∨ r.name ≠ "") := by
  intro r hr
  unfold textParseE at h
  rcases hl : (splitCh '\n' trimmed).filter (fun l => jsTrim l ≠ "") with _ | ⟨first, restLines⟩
  · rw [hl] at h
    rcases Except.ok.inj h with rfl
    cases hr
  · rw [hl] at h
    dsimp only at h
    rcases htl : tableLoop today dd _ _ _ [] with e | records <;>
      rw [htl] at h <;> dsimp only at h
    · cases h
    · by_cases hz : records.length = 0
      · rw [if_pos hz] at h
        rcases blockLoop_mem today dd _ _ _ h r hr with habs | hok
        · rcases List.length_eq_zero.mp hz with rfl
          cases habs
        · exact hok
      · rw [if_neg hz] at h
        rcases Except.ok.inj h with rfl
        rcases tableLoop_mem today dd _ _ _ _ _ htl r hr with habs | hok
        · cases habs
        · exact hok

theorem jsonMapE_mem (today : String) (dd : Option String) :
    ∀ (items : List JsVal) (res : List SignalRecord),
    jsonMapE today dd items = .ok res → ∀ r ∈ res,
      ∃ raw, normalizeRecordE today dd raw = .ok r := by
  intro items
  induction items with
  | nil =>
      intro res h r hr
      rcases Except.ok.inj h with rfl
      cases hr
  | cons item rest ih =>
      intro res h r hr
      simp only [jsonMapE] at h
      rcases hnr : normalizeRecordE today dd item with e | record <;>
        rw [hnr] at h <;> try simp only [Except.bind] at h
      · cases h
      · rcases hrest : jsonMapE today dd rest with e | records <;>
          rw [hrest] at h <;> try simp only [Except.bind] at h
        · cases h
        · rcases Except.ok.inj h with rfl
          rcases hr with _ | hr
          · exact ⟨item, hnr⟩
          · exact ih records hrest r (by assumption)

/-- Every record `parseSignalText` returns is a successful
`normalizeRecord` output. -/
theorem parseSignalTextE_mem {today : String} {dd : Option String} {text : String}
    {res : List SignalRecord} (h : parseSignalTextE today dd text = .ok res) :
    ∀ r ∈ res, ∃ raw, normalizeRecordE today dd raw = .ok r := by
  intro r hr
  unfold parseSignalTextE at h
  by_cases hs : strStartsWith (jsTrim text) "[" = true
  · rw [if_pos hs] at h
    rcases hjp : jsonTryPath today dd (jsTrim text) with _ | records <;>
      rw [hjp] at h <;> try dsimp only at h
    · obtain ⟨raw, hraw, _⟩ := textParseE_mem h r hr
      exact ⟨raw, hraw⟩
    · rcases Except.ok.inj h with rfl
      unfold jsonTryPath at hjp
      rcases hjson : jsonParse (jsTrim text) with _ | v <;>
        rw [hjson] at hjp <;> try dsimp only at hjp
      · cases hjp
      · cases v <;> try dsimp only at hjp
        all_goals try cases hjp
        next items =>
          rcases hmap : jsonMapE today dd items with e | rs <;>
            rw [hmap] at hjp <;> try dsimp only at hjp
          · cases hjp
          · rcases Option.some.inj hjp with rfl
            exact jsonMapE_mem today dd items _ hmap r hr
  · rw [if_neg hs] at h
    obtain ⟨raw, hraw, _⟩ := textParseE_mem h r hr
    exact ⟨raw, hraw⟩

/-! ## Score decomposition -/

/-- The base contribution of the sector pattern (+30 for pattern A,
+20 for pattern B, +0 when missing). -/
def patternBase : Option SectorPattern → Int
  | some .patternA => 30
  | some .patternB => 20
  | none => 0

/-- The contribution of the turnover tier chain. -/
def turnoverBonus : Option JsNum → Int
  | none => 0
  | some n =>
      if n.geNat 8 then 30
      else if n.geNat 5 then 20
      else if n.geNat 3 then 10
      else 0

theorem scoreBeforeClamp_eq (sp : Option SectorPattern) (t : Option JsNum) :
    (scoreBeforeClamp ⟨sp, t⟩).1 = patternBase sp + turnoverBonus t := by
  rcases sp with _ | p
  · rcases t with _ | n
    · rfl
    · simp only [scoreBeforeClamp, patternBase, turnoverBonus]
      split_ifs <;> rfl
  · cases p <;> rcases t with _ | n <;>
      simp only [scoreBeforeClamp, patternBase, turnoverBonus] <;>
      first
        | rfl
        | (split_ifs <;> rfl)

theorem calculateScore_score_eq (record : ScorePartial) :
    (calculateScore record).score = max 0 (min 100 (scoreBeforeClamp record).1) := rfl

theorem patternBase_bounds (sp : Option SectorPattern) :
    0 ≤ patternBase sp ∧ patternBase sp ≤ 30 := by
  rcases sp with _ | p
  · exact ⟨by decide, by decide⟩
  · cases p <;> exact ⟨by decide, by decide⟩

theorem turnoverBonus_cases (t : Option JsNum) :
    turnoverBonus t = 0 ∨ turnoverBonus t = 10 ∨ turnoverBonus t = 20 ∨
      turnoverBonus t = 30 := by
  rcases t with _ | n
  · exact .inl rfl
  · simp only [turnoverBonus]
    split_ifs
    · exact .inr (.inr (.inr rfl))
    · exact .inr (.inr (.inl rfl))
    · exact .inr (.inl rfl)
    · exact .inl rfl

/-! ## Numeric coercion lemmas -/

theorem numOrNull_ne_some_nan (n : JsNum) : numOrNull n ≠ some .nan := by
  unfold numOrNull
  split
  · exact Option.noConfusion
  · intro h
    rcases Option.some.inj h with rfl
    simp [JsNum.falsy] at *

theorem numOrNull_eq_none_iff (n : JsNum) : numOrNull n = none ↔ n.falsy = true := by
  unfold numOrNull
  split <;> simp_all

/-- Evaluating `s || ""` gives `s` for every string value (the falsy string is `""`
itself). -/
theorem jsOr_str_str_empty (s : String) : jsOr (.str s) (.str "") = .str s := by
  by_cases hs : s = "" <;> simp [jsOr, jsTruthy, hs]

/-! ## Sample inputs used by witnesses -/

def emptyRecord : SignalRecord :=
  ⟨.undefined, "", "", [], none, none, none, none, none, 0, []⟩

/-- The single record parsed from the headerless table row `"002371,Y"`. -/
def sampleRec : SignalRecord :=
  ((textParseE "2026-01-01" none "002371,Y").toOption.getD []).headD emptyRecord

def c3raw : JsVal := .obj [("name", JsVal.str "X")]

def c3rec : SignalRecord :=
  (normalizeRecordE "2026-01-01" none c3raw).toOption.getD emptyRecord

def c4raw : JsVal := .obj [("name", JsVal.str "X"), ("turnover", JsVal.str "6.5")]

def c4rec : SignalRecord :=
  (normalizeRecordE "2026-01-01" none c4raw).toOption.getD emptyRecord

/-! ## Claims -/

/-- C1: for every input string — including the empty string, deeply
malformed JSON such as `"[{invalid"`, and JSON arrays containing null
elements — `parseSignalText` returns normally with a (possibly empty)
record list and never throws; a failed JSON attempt (including
exceptions raised while normalizing the parsed elements) falls through
to the text-parsing strategies instead of raising. -/
theorem parseSignalText_never_throws :
    (∀ (today : String) (dd : Option String) (text : String),
      ∃ records, parseSignalTextE today dd text = .ok records) ∧
    (∀ (today : String) (dd : Option String),
      parseSignalTextE today dd "" = .ok [] ∧
      parseSignalTextE today dd "[\x7binvalid" = textParseE today dd "[\x7binvalid" ∧
      parseSignalTextE today dd "[null]" = textParseE today dd "[null]") := by
  constructor
  · intro today dd text
    unfold parseSignalTextE
    by_cases hs : strStartsWith (jsTrim text) "[" = true
    · rw [if_pos hs]
      rcases hjp : jsonTryPath today dd (jsTrim text) with _ | records
      · exact textParseE_ok today dd _
      · exact ⟨records, rfl⟩
    · rw [if_neg hs]
      exact textParseE_ok today dd _
  · intro today dd
    exact ⟨rfl, rfl, rfl⟩

/-- C2 is false as stated: the JSON-array path maps every element
through normalization and returns the result without the code/name
filter, so `"[{}]"` parses to one record whose code and name are both
empty. -/
theorem jsonPath_unfiltered_counterexample :
    (parseSignalTextE "2026-01-01" none "[\x7b\x7d]").map
      (fun l => l.map (fun r => (r.code, r.name))) = .ok [("", "")] := rfl

/-- C2 (amended): the drop-empty-rows filter holds on the
delimited-table and label-block paths — every record they produce has
a non-empty code or a non-empty name — but the JSON-array path applies
no such filter. -/
theorem textPaths_drop_empty_rows {today : String} {dd : Option String}
    {trimmed : String} {res : List SignalRecord}
    (h : textParseE today dd trimmed = .ok res) :
    ∀ r ∈ res, r.code ≠ "" ∨ r.name ≠ "" := by
  intro r hr
  obtain ⟨_, _, hcn⟩ := textParseE_mem h r hr
  exact hcn

theorem textPaths_drop_empty_rows_witness :
    sampleRec.code ≠ "" ∨ sampleRec.name ≠ "" :=
  @textPaths_drop_empty_rows "2026-01-01" none "002371,Y" [sampleRec] rfl sampleRec
    (List.mem_singleton_self sampleRec)

/-- C3 is false as stated: a JSON record with no sector text
normalizes to an empty sector list — there is no placeholder — so
`parseSignalText` can return a record whose sector is `[]`. -/
theorem sector_placeholder_counterexample :
    (parseSignalTextE "2026-01-01" none "[\x7b\"name\":\"X\"\x7d]").map
      (fun l => l.map SignalRecord.sector) = .ok [[]] := rfl

/-- C3 (amended): when the raw input supplies no usable sector text —
the raw sector field is neither a string nor an array — the normalized
sector field defaults to the empty list (not a single-element
placeholder), so records may carry an empty sector. -/
theorem sector_defaults_to_empty {today : String} {dd : Option String}
    {raw : JsVal} {r : SignalRecord}
    (h : normalizeRecordE today dd raw = .ok r)
    (hns : ∀ s, jsGetD raw "sector" ≠ .str s)
    (hna : ∀ xs, jsGetD raw "sector" ≠ .arr xs) :
    r.sector = [] := by
  obtain ⟨nameS, _, rfl⟩ := normalizeRecordE_ok_shape h
  show (match jsGetD raw "sector" with
    | .str s => (((splitSector s).map jsTrim).filter (fun t => t ≠ "")).map JsVal.str
    | .arr xs => xs
    | _ => []) = []
  rcases hsec : jsGetD raw "sector" with _ | _ | b | n | s | xs | fs <;>
    first
      | rfl
      | exact absurd hsec (hns s)
      | exact absurd hsec (hna xs)

theorem sector_defaults_to_empty_witness : c3rec.sector = [] :=
  @sector_defaults_to_empty "2026-01-01" none c3raw c3rec rfl
    (fun s hX => JsVal.noConfusion hX) (fun xs hX => JsVal.noConfusion hX)

/-- C4 is false as stated: a raw turnover of `"0"` (or `"0%"`, or the
number 0) normalizes to null, not to the number 0, because the source
applies `parseFloat(...) || null` and `0` is falsy. -/
theorem zero_turnover_counterexample :
    ((normalizeRecordE "2026-01-01" none
        (.obj [("name", .str "X"), ("turnover", .str "0")])).map SignalRecord.turnover
      = .ok none) ∧
    ((normalizeRecordE "2026-01-01" none
        (.obj [("name", .str "X"), ("turnover", .str "0%")])).map SignalRecord.turnover
      = .ok none) ∧
    ((normalizeRecordE "2026-01-01" none
        (.obj [("name", .str "X"), ("turnover", .num (.dec 0 0))])).map SignalRecord.turnover
      = .ok none) := ⟨rfl, rfl, rfl⟩

/-- C4 (amended): numeric-field parsing yields null when the raw input
is absent/empty, fails to parse, **or parses to the number 0** (the
`|| null` coercion nulls falsy numbers); otherwise it yields the
parsed float, and no numeric field is ever NaN. -/
theorem numeric_fields_null_iff {today : String} {dd : Option String}
    {raw : JsVal} {r : SignalRecord}
    (h : normalizeRecordE today dd raw = .ok r) :
    (r.turnover ≠ some .nan ∧ r.chg ≠ some .nan ∧ r.amount ≠ some .nan ∧
      r.debt_ratio ≠ some .nan) ∧
    (∀ s, jsGetD raw "turnover" = .str s →
      ((r.turnover = none ↔ (parseFloatS ⟨removeFirstCh '%' s.data⟩).falsy = true) ∧
       ((parseFloatS ⟨removeFirstCh '%' s.data⟩).falsy = false →
         r.turnover = some (parseFloatS ⟨removeFirstCh '%' s.data⟩)))) ∧
    (jsGetD raw "turnover" = .undefined → r.turnover = none) := by
  obtain ⟨nameS, _, rfl⟩ := normalizeRecordE_ok_shape h
  refine ⟨⟨numOrNull_ne_some_nan _, numOrNull_ne_some_nan _, numOrNull_ne_some_nan _,
    numOrNull_ne_some_nan _⟩, ?_, ?_⟩
  · intro s hs
    have hturn : (normalizeFields today dd raw nameS).turnover =
        numOrNull (parseFloatS ⟨removeFirstCh '%' s.data⟩) := by
      show percentField (jsGetD raw "turnover") = _
      rw [hs]
      unfold percentField
      rw [jsOr_str_str_empty]
      rfl
    rw [hturn]
    constructor
    · exact numOrNull_eq_none_iff _
    · intro hf
      simp [numOrNull, hf]
  · intro hu
    show percentField (jsGetD raw "turnover") = none
    rw [hu]
    rfl

theorem numeric_fields_null_iff_witness : c4rec.turnover = some (.dec 65 1) := by
  have h := (@numeric_fields_null_iff "2026-01-01" none c4raw c4rec rfl).2.1 "6.5" rfl
  rw [h.2 (by decide)]
  decide

/-- C5: the `score` and `reason` of every record `parseSignalText`
returns equal `calculateScore` applied to that record's
`(sector_pattern, turnover)`; raw score/reason values are never copied
into the output. -/
theorem score_always_recomputed {today : String} {dd : Option String}
    {text : String} {res : List SignalRecord}
    (h : parseSignalTextE today dd text = .ok res) :
    ∀ r ∈ res,
      r.score = (calculateScore ⟨r.sector_pattern, r.turnover⟩).score ∧
      r.reason = (calculateScore ⟨r.sector_pattern, r.turnover⟩).reason := by
  intro r hr
  obtain ⟨raw, hraw⟩ := parseSignalTextE_mem h r hr
  obtain ⟨nameS, _, rfl⟩ := normalizeRecordE_ok_shape hraw
  exact ⟨rfl, rfl⟩

theorem score_always_recomputed_witness :
    sampleRec.score = (calculateScore ⟨sampleRec.sector_pattern, sampleRec.turnover⟩).score ∧
    sampleRec.reason = (calculateScore ⟨sampleRec.sector_pattern, sampleRec.turnover⟩).reason :=
  @score_always_recomputed "2026-01-01" none "002371,Y" [sampleRec] rfl sampleRec
    (List.mem_singleton_self sampleRec)

/-- C6: the turnover thresholds are mutually exclusive tiers — every
input receives exactly one of the +30/+20/+10/+0 turnover
contributions on top of the pattern base — and in particular
`calculateScore({sector_pattern: null, turnover: 8})` scores 30, not
60. -/
theorem turnover_tiers_exclusive :
    (calculateScore ⟨none, some (.dec 8 0)⟩).score = 30 ∧
    ∀ (sp : Option SectorPattern) (t : Option JsNum),
      ∃ b, (b = 0 ∨ b = 10 ∨ b = 20 ∨ b = 30) ∧
        (calculateScore ⟨sp, t⟩).score = patternBase sp + b := by
  refine ⟨by decide, ?_⟩
  intro sp t
  refine ⟨turnoverBonus t, turnoverBonus_cases t, ?_⟩
  have he := scoreBeforeClamp_eq sp t
  have hb := patternBase_bounds sp
  have hcases := turnoverBonus_cases t
  rw [calculateScore_score_eq, he]
  have h1 : min 100 (patternBase sp + turnoverBonus t) =
      patternBase sp + turnoverBonus t := by
    apply min_eq_right
    rcases hcases with h | h | h | h <;> omega
  rw [h1]
  apply max_eq_right
  rcases hcases with h | h | h | h <;> omega

/-- C7: for every scoring input, the additive total before clamping
lies in [0, 60], the defensive clamp to [0, 100] never changes the
value, and the returned score satisfies 0 ≤ score ≤ 100. -/
theorem score_range_clamp_unreachable :
    ∀ (record : ScorePartial),
      0 ≤ (scoreBeforeClamp record).1 ∧ (scoreBeforeClamp record).1 ≤ 60 ∧
      (calculateScore record).score = (scoreBeforeClamp record).1 ∧
      0 ≤ (calculateScore record).score ∧ (calculateScore record).score ≤ 100 := by
  intro record
  obtain ⟨sp, t⟩ := record
  have he := scoreBeforeClamp_eq sp t
  have hb := patternBase_bounds sp
  have hcases := turnoverBonus_cases t
  have hlo : 0 ≤ (scoreBeforeClamp ⟨sp, t⟩).1 := by
    rw [he]; rcases hcases with h | h | h | h <;> omega
  have hhi : (scoreBeforeClamp ⟨sp, t⟩).1 ≤ 60 := by
    rw [he]; rcases hcases with h | h | h | h <;> omega
  have hclamp : (calculateScore ⟨sp, t⟩).score = (scoreBeforeClamp ⟨sp, t⟩).1 := by
    rw [calculateScore_score_eq]
    rw [min_eq_right (by omega), max_eq_right (by omega)]
  exact ⟨hlo, hhi, hclamp, by omega, by omega⟩

/-- C8: `normalizeCode` strips every non-digit and left-pads with '0'
to length 6; nonempty digit strings of length ≤ 6 come out right-
aligned, zero-padded to exactly length 6; `""` and null map to `""`;
strings of more than 6 digits pass through untruncated. -/
theorem normalizeCode_canonicalizes :
    (∀ s : String, s ≠ "" →
      normalizeCode (.str s) =
        ⟨List.replicate (6 - (s.data.filter Char.isDigit).length) '0' ++
          s.data.filter Char.isDigit⟩) ∧
    (∀ s : String, s ≠ "" → (∀ c ∈ s.data, c.isDigit) →
      normalizeCode (.str s) = ⟨List.replicate (6 - s.data.length) '0' ++ s.data⟩ ∧
      (s.data.length ≤ 6 → (normalizeCode (.str s)).data.length = 6) ∧
      (6 ≤ s.data.length → normalizeCode (.str s) = s)) ∧
    normalizeCode (.str "600519") = "600519" ∧
    normalizeCode (.str "1") = "000001" ∧
    normalizeCode (.str "") = "" ∧
    normalizeCode .null = "" := by
  have hstrip : ∀ s : String, s ≠ "" →
      normalizeCode (.str s) =
        ⟨List.replicate (6 - (s.data.filter Char.isDigit).length) '0' ++
          s.data.filter Char.isDigit⟩ := by
    intro s hs
    simp only [normalizeCode, jsTruthy, jsToString, jsPadStart]
    simp [hs]
  refine ⟨hstrip, ?_, by decide, by decide, by decide, by decide⟩
  intro s hs hdig
  have hfilter : s.data.filter Char.isDigit = s.data := List.filter_eq_self.mpr hdig
  have hpad : normalizeCode (.str s) =
      ⟨List.replicate (6 - s.data.length) '0' ++ s.data⟩ := by
    rw [hstrip s hs, hfilter]
  refine ⟨hpad, ?_, ?_⟩
  · intro hle
    rw [hpad]
    simp only [List.length_append, List.length_replicate]
    omega
  · intro hge
    rw [hpad]
    have : 6 - s.data.length = 0 := by omega
    rw [this]
    cases s
    rfl

theorem normalizeCode_canonicalizes_witness :
    normalizeCode (.str "a1") = "000001" ∧ normalizeCode (.str "1234567") = "1234567" := by
  constructor
  · have h := normalizeCode_canonicalizes.1 "a1" (by decide)
    rw [h]; rfl
  · have h := (normalizeCode_canonicalizes.2.1 "1234567" (by decide) (by decide)).2.2
    exact h (by decide)

/-- C9: the header-table input `"代码,名称,换手率\n002371,Y,6.5"`
parses to exactly one record with code "002371", name "Y", turnover
6.5, no sector pattern, and score 20 (the 5–8% turnover tier). -/
theorem header_table_scenario :
    (parseSignalTextE "2026-01-01" none "代码,名称,换手率\n002371,Y,6.5").map
      (fun l => l.map (fun r => (r.code, r.name, r.turnover, r.sector_pattern, r.score))) =
    .ok [("002371", "Y", some (.dec 65 1), none, 20)] := rfl

/-- C10: a data line that splits into fewer than two cells under the
detected delimiter is skipped before the positional heuristics run, so
a single-token headerless line — even the valid code `"600519"` —
never yields a record from the table path. -/
theorem short_rows_skipped :
    (∀ (headers : List String) (sep : Char) (line : String),
      ((splitCh sep (jsTrim line)).map jsTrim).length < 2 →
      tableLineRaw headers sep line = none) ∧
    tableLoop "2026-01-01" none [] ',' ["600519"] [] = .ok [] ∧
    parseSignalTextE "2026-01-01" none "600519" = .ok [] := by
  refine ⟨?_, rfl, rfl⟩
  intro headers sep line h
  simp only [tableLineRaw]
  split_ifs with h1 h2 h3 <;> rfl

theorem short_rows_skipped_witness : tableLineRaw [] ',' "600519" = none :=
  short_rows_skipped.1 [] ',' "600519" (by decide)

end Caishen
